import Mathlib

/-!
Verification development for the yaml-sort command line utility
(src/yaml-sort.js).

Text is modelled as a list of characters.  The pipeline of the program
(read, parse, sort and dump each document, rejoin with the document
separator, then write or check) is translated from the source.  The
external YAML library (js-yaml) is a black box for the program; following
the specification it is modelled as: split the raw text on document
separator markers, parse each document with an abstract per-document
parser, and dump each document with an abstract serializer.  The claims
about the pipeline are proved for every parser and serializer satisfying
the contract the specification states for the library.
-/

/-- Text is a list of characters, as JavaScript strings are sequences of
characters for the purposes of this program. -/
abbrev Str := List Char

/-- Whitespace test used by the model of the trimStart call of the source
(line 112).  The common whitespace characters suffice for this program. -/
def isWsChar (c : Char) : Bool :=
  c = ' ' || c = '\t' || c = '\n' || c = '\r'

/-- Model of the JavaScript trimStart call: drop leading whitespace. -/
def trimLeftWs (s : Str) : Str :=
  s.dropWhile (fun c => isWsChar c)

/-- The stdin placeholder input name, a single dash. -/
def dash : Str := ['-']

/-- The document separator marker line, as the source joins documents
with it (line 114 of src/yaml-sort.js). -/
def marker : Str := ['-', '-', '-', '\n']

/-- Model of the startsWith call of the source (line 112): does the text
begin with three dashes. -/
def startsWith3Dash : Str → Bool
  | c1 :: c2 :: c3 :: _ => c1 = '-' && c2 = '-' && c3 = '-'
  | _ => false

/-- Does the text end with a newline character. -/
def endsNl : Str → Bool
  | [] => false
  | [c] => c = '\n'
  | _ :: c :: rest => endsNl (c :: rest)

/-- Does the text begin with a character that is not whitespace. -/
def headNonWs : Str → Bool
  | [] => false
  | c :: _ => !(isWsChar c)

/-- Modelled from the spec: the document stream structure of js-yaml
loadAll, which the specification describes as splitting the raw text on
the document separator marker.  The function cuts the text at every
occurrence of the four characters dash dash dash newline, scanning left
to right. -/
def splitM : Str → List Str
  | [] => [[]]
  | c1 :: c2 :: c3 :: c4 :: rest =>
    if c1 = '-' && c2 = '-' && c3 = '-' && c4 = '\n' then
      [] :: splitM rest
    else
      match splitM (c2 :: c3 :: c4 :: rest) with
      | [] => [[c1]]
      | g :: gs => (c1 :: g) :: gs
  | c :: cs =>
    match splitM cs with
    | [] => [[c]]
    | g :: gs => (c :: g) :: gs

/-- Modelled from the spec: the list of document texts of one input.  A
leading separator marker opens the first document rather than closing an
empty one, so an empty leading chunk is dropped; empty input holds no
document. -/
def splitDocs (s : Str) : List Str :=
  match splitM s with
  | [] :: rest => rest
  | parts => parts

/-- Model of the JavaScript Array join call of the source (line 114):
interleave the document separator marker between the dumped documents. -/
def joinDocs : List Str → Str
  | [] => []
  | [p] => p
  | p :: q :: rest => p ++ (marker ++ joinDocs (q :: rest))

/-- Modelled from the spec: parsing every document text of a stream with
the per-document parser of the library; any parse failure fails the whole
load, as js-yaml loadAll throws on malformed input. -/
def parseList {D : Type} (parse : Str → Option D) : List Str → Option (List D)
  | [] => some []
  | s :: rest =>
    match parse s with
    | none => none
    | some d =>
      match parseList parse rest with
      | none => none
      | some ds => some (d :: ds)

/-- Modelled from the spec: js-yaml loadAll as used at line 102 of the
source, split into the document stream then parse each document. -/
def loadAll {D : Type} (parse : Str → Option D) (content : Str) : Option (List D) :=
  parseList parse (splitDocs content)

/-- The quoting style option of the command line (single or double). -/
inductive QuotingStyle where
  | single
  | double
deriving DecidableEq

/-- The options object passed to the library dump call at lines 104 to
110 of src/yaml-sort.js.  The sortKeys flag is always set there, so it is
not a field; quotingType holds the quote character. -/
structure DumpOptions where
  indent : Nat
  lineWidth : Int
  quotingType : Char
  forceQuotes : Bool
deriving DecidableEq

/-- The startsWith document marker test of line 112 of the source:
the raw content, leading whitespace trimmed, begins with three dashes. -/
def hasDocumentStart (content : Str) : Bool :=
  startsWith3Dash (trimLeftWs content)

/-- The sort and format pipeline of lines 102 to 114 of src/yaml-sort.js,
parametric in the per-document parser and serializer of the external
library: load all documents, dump each one under the options (the dump of
the library sorts mapping keys), and rejoin them with the document
separator marker, prepending the marker exactly when the original content
carried one.  A parse failure (an exception in the source, caught by the
surrounding try block) is the none result. -/
def sortAndFormat {D : Type} (parse : Str → Option D) (dump : D → DumpOptions → Str)
    (opts : DumpOptions) (content : Str) : Option Str :=
  match loadAll parse content with
  | none => none
  | some documents =>
    let sortedDocuments := documents.map (fun doc => dump doc opts)
    some ((if hasDocumentStart content then marker else []) ++ joinDocs sortedDocuments)

/-- A well-behaved dumped document text, as the external library emits
one: it contains no document separator marker (so the split of the model
leaves it whole), it ends with a newline, it begins with a character that
is neither whitespace nor part of a leading three-dash marker.  These are
the properties of js-yaml dump output the specification relies on when it
treats the library as a black box. -/
def GoodChunk (s : Str) : Prop :=
  splitM s = [s] ∧ endsNl s = true ∧ headNonWs s = true ∧ startsWith3Dash s = false

instance (s : Str) : Decidable (GoodChunk s) := by
  unfold GoodChunk
  infer_instance

/-- A write destination of the program: standard output or a file path. -/
inductive Dest where
  | stdout
  | file (path : Str)
deriving DecidableEq

/-- The parsed command line of the program (the argv object of lines 9 to
82 of src/yaml-sort.js), restricted to the fields the processing loop
reads.  The encoding option only selects how bytes are decoded before the
text reaches the pipeline, so the model takes decoded text from the
environment directly. -/
structure Argv where
  input : List Str
  output : Option Str
  stdoutFlag : Bool
  check : Bool
  indent : Nat
  lineWidth : Int
  quotingStyle : QuotingStyle
  forceQuotes : Bool

/-- The dump options object built at lines 104 to 110 of the source from
the command line values.  The quote characters are written by code so the
source file stays free of quote literals: 34 is the double quote and 39
the single quote. -/
def dumpOptionsOf (argv : Argv) : DumpOptions :=
  { indent := argv.indent
    lineWidth := argv.lineWidth
    quotingType := if argv.quotingStyle = QuotingStyle.double then Char.ofNat 34 else Char.ofNat 39
    forceQuotes := argv.forceQuotes }

/-- The world outside the program: whether standard input is a terminal,
what reading standard input or a file yields (none models a read error,
an exception of readFileSync), and whether an asynchronous write to a
destination succeeds. -/
structure Env where
  stdinIsTTY : Bool
  stdinContent : Option Str
  readFile : Str → Option Str
  writeOk : Dest → Bool

/-- JavaScript truthiness of the output option value: undefined and the
empty string are falsy. -/
def truthyOut : Option Str → Bool
  | none => false
  | some s => decide (s ≠ [])

/-- The output destination computation of lines 95 to 98 of
src/yaml-sort.js, including the JavaScript truthiness of the ternary
test on argv.output. -/
def resolveOutput (argv : Argv) (file : Str) : Dest :=
  if argv.stdoutFlag = true ∨ argv.output = some ['.'] ∨
      (file = dash ∧ truthyOut argv.output = false) then
    Dest.stdout
  else
    match argv.output with
    | some o => if o = [] then Dest.file file else Dest.file o
    | none => Dest.file file

/-- The mutable state of the synchronous pass of the program over its
inputs: the aggregate success flag of line 84, writes queued by the
asynchronous fs.writeFile call of line 122 (queued, not yet performed:
the callback of the write runs only after the whole synchronous script,
including the exit check of line 138, has finished), warnings printed in
check mode, inputs whose read succeeded, and whether process.exit was
invoked (which ends the loop at once). -/
structure SyncState where
  success : Bool
  queued : List (Dest × Str)
  warned : List Str
  reads : List Str
  exited : Option Nat

/-- The state at entry of the forEach loop of line 86. -/
def initState : SyncState :=
  { success := true, queued := [], warned := [], reads := [], exited := none }

/-- The body of the per-input try block of lines 87 to 135 after the
stdin misuse guard: resolve the destination, read, run the pipeline, then
either compare in check mode or queue the asynchronous write.  A read or
parse failure is caught (lines 132 to 135) and clears the success flag. -/
def procBody {D : Type} (parse : Str → Option D) (dump : D → DumpOptions → Str)
    (env : Env) (argv : Argv) (st : SyncState) (file : Str) : SyncState :=
  match (if file = dash then env.stdinContent else env.readFile file) with
  | none => { st with success := false }
  | some content =>
    match sortAndFormat parse dump (dumpOptionsOf argv) content with
    | none => { st with success := false, reads := st.reads ++ [file] }
    | some sortedContent =>
      if argv.check then
        if sortedContent = content then
          { st with reads := st.reads ++ [file] }
        else
          { st with
            success := false
            warned := st.warned ++ [file]
            reads := st.reads ++ [file] }
      else
        { st with
          reads := st.reads ++ [file]
          queued := st.queued ++ [(resolveOutput argv file, sortedContent)] }

/-- One iteration of the forEach loop of line 86: nothing runs after a
process.exit call; reading standard input while it is a terminal invokes
process.exit 22 (lines 90 to 93); otherwise the body runs. -/
def procOne {D : Type} (parse : Str → Option D) (dump : D → DumpOptions → Str)
    (env : Env) (argv : Argv) (st : SyncState) (file : Str) : SyncState :=
  match st.exited with
  | some _ => st
  | none =>
    if file = dash ∧ env.stdinIsTTY = true then
      { st with exited := some 22 }
    else
      procBody parse dump env argv st file

/-- The observable outcome of one whole run: the process exit code, the
writes that were queued during the loop, the writes that actually reached
their destination, the warnings, and the inputs read. -/
structure RunResult where
  exitCode : Nat
  writesAttempted : List (Dest × Str)
  writesCompleted : List (Dest × Str)
  warned : List Str
  reads : List Str

/-- The whole program run, lines 84 to 140 of src/yaml-sort.js.  The loop
runs synchronously; then the exit check of line 138 runs.  Node delivers
the callbacks of fs.writeFile only after that point, and process.exit is
documented to end the process without waiting for pending asynchronous
input or output, so: when process.exit fired (misuse exit 22, or exit 1
because the success flag was cleared synchronously) no queued write
completes; otherwise the queued writes run, each succeeding as the
environment dictates, and a write error can no longer influence the exit
code, which is already 0.  This function is the end of the run given the
state the synchronous loop left: the exit check of line 138 and then the
draining of the event loop. -/
def runOf (env : Env) (st : SyncState) : RunResult :=
  match st.exited with
  | some code =>
    { exitCode := code, writesAttempted := st.queued, writesCompleted := [],
      warned := st.warned, reads := st.reads }
  | none =>
    if st.success then
      { exitCode := 0, writesAttempted := st.queued,
        writesCompleted := st.queued.filter (fun q => env.writeOk q.1),
        warned := st.warned, reads := st.reads }
    else
      { exitCode := 1, writesAttempted := st.queued, writesCompleted := [],
        warned := st.warned, reads := st.reads }

/-- The whole program run: the synchronous forEach loop of line 86 over
the inputs, followed by the end of the run. -/
def run {D : Type} (parse : Str → Option D) (dump : D → DumpOptions → Str)
    (env : Env) (argv : Argv) : RunResult :=
  runOf env (argv.input.foldl (fun s f => procOne parse dump env argv s f) initState)

/-- Output destination resolution as claim C10 words it: standard output
when the stdout flag is set, or the output value is the dot path, or the
input is stdin with no output given; else the given output path; else the
input path itself. -/
def resolveOutputClaim (argv : Argv) (file : Str) : Dest :=
  if argv.stdoutFlag = true ∨ argv.output = some ['.'] ∨ (file = dash ∧ argv.output = none) then
    Dest.stdout
  else
    match argv.output with
    | some o => Dest.file o
    | none => Dest.file file

/-- Modelled from the spec: the in-memory document tree the library
parses one YAML document into (scalars and mappings with entries in
source order; the claims under verification quantify over mappings). -/
inductive Node where
  | scalar (s : Str)
  | mapping (entries : List (Str × Node))

/-- Order of mapping entries by key, keys compared as strings, as the
specification describes the native key sort of the serializer. -/
def entryLe (a b : Str × Node) : Prop := a.1 ≤ b.1

instance : DecidableRel entryLe := fun a b => by
  unfold entryLe
  infer_instance

instance : IsTotal (Str × Node) entryLe := ⟨fun a b => le_total a.1 b.1⟩

instance : IsTrans (Str × Node) entryLe := ⟨fun _ _ _ h1 h2 => le_trans h1 h2⟩

/-- Strict order of mapping entries by key. -/
def entryLt (a b : Str × Node) : Prop := a.1 < b.1

instance : IsAntisymm (Str × Node) entryLt :=
  ⟨fun _ _ h1 h2 => absurd (lt_trans h1 h2) (lt_irrefl _)⟩

/-- Modelled from the spec: sorting the entries of one mapping into
ascending lexicographic key order. -/
def sortEntries (l : List (Str × Node)) : List (Str × Node) :=
  List.insertionSort entryLe l

mutual

/-- Modelled from the spec: the recursive key sort the sortKeys option of
the library dump applies to every mapping of the document tree. -/
def sortNode : Node → Node
  | Node.scalar s => Node.scalar s
  | Node.mapping es => Node.mapping (sortEntries (sortChildren es))

/-- Modelled from the spec: recursive key sort applied to the value of
every entry of a mapping. -/
def sortChildren : List (Str × Node) → List (Str × Node)
  | [] => []
  | (k, v) :: rest => (k, sortNode v) :: sortChildren rest

end

/-- Indentation of the requested width. -/
def spacesN : Nat → Str
  | 0 => []
  | n + 1 => ' ' :: spacesN n

/-- Modelled from the spec: surface quoting of a scalar under the
formatting options (character 34 is the double quote, 39 the single
quote, as selected by the quotingType option). -/
def emitScalar (opts : DumpOptions) (s : Str) : Str :=
  if opts.forceQuotes then opts.quotingType :: (s ++ [opts.quotingType]) else s

mutual

/-- Modelled from the spec: block style serialization of one already
sorted document tree under the formatting options (characters 123 and
125 are the braces of an empty flow mapping). -/
def emitNode (opts : DumpOptions) (ind : Nat) : Node → Str
  | Node.scalar s => emitScalar opts s ++ ['\n']
  | Node.mapping [] => [Char.ofNat 123, Char.ofNat 125, '\n']
  | Node.mapping (e :: es) => emitEntries opts ind (e :: es)

/-- Modelled from the spec: serialization of the entries of a mapping,
one line per entry, nested mappings indented by the indent option. -/
def emitEntries (opts : DumpOptions) (ind : Nat) : List (Str × Node) → Str
  | [] => []
  | (k, v) :: rest =>
    (match v with
     | Node.scalar s => spacesN ind ++ k ++ [':', ' '] ++ emitScalar opts s ++ ['\n']
     | Node.mapping [] => spacesN ind ++ k ++ [':', ' ', Char.ofNat 123, Char.ofNat 125, '\n']
     | Node.mapping (e :: es) =>
       spacesN ind ++ k ++ [':', '\n'] ++ emitEntries opts (ind + opts.indent) (e :: es))
    ++ emitEntries opts ind rest

end

/-- Modelled from the spec: the library dump call with the sortKeys flag,
as lines 104 to 110 of the source invoke it: sort every mapping of the
tree recursively, then serialize under the formatting options. -/
def dumpDoc (d : Node) (opts : DumpOptions) : Str :=
  emitNode opts 0 (sortNode d)

/-! Concrete instance data used by the closed witness and counterexample
theorems: a tiny two key mapping text, its sorted form, a table parser
and serializer for them, and small command lines and environments. -/

/-- A two key mapping text with its keys out of order. -/
def wUnsorted : Str := ['b', ':', ' ', '2', '\n', 'a', ':', ' ', '1', '\n']

/-- The same mapping text with its keys sorted. -/
def wSorted : Str := ['a', ':', ' ', '1', '\n', 'b', ':', ' ', '2', '\n']

/-- A malformed text the table parser rejects. -/
def wBadContent : Str := ['?', '\n']

/-- A table parser recognizing the two mapping texts as one document. -/
def wParse : Str → Option Nat := fun s =>
  if s = wUnsorted ∨ s = wSorted then some 0 else none

/-- A table serializer dumping that document in sorted form. -/
def wDump : Nat → DumpOptions → Str := fun _ _ => wSorted

/-- Default formatting options (indent 2, line width 80, single quote,
no forced quotes). -/
def wOpts : DumpOptions :=
  { indent := 2, lineWidth := 80, quotingType := Char.ofNat 39, forceQuotes := false }

/-- The unsorted text preceded by a document start marker. -/
def wMarked : Str := marker ++ wUnsorted

/-- Two copies of the unsorted text as a two document input. -/
def wTwoDocs : Str := wUnsorted ++ (marker ++ wUnsorted)

/-- An input file name. -/
def wFileIn : Str := ['i', 'n']

/-- The name of a file holding malformed content. -/
def wFileBad : Str := ['b', 'd']

/-- The name of a file holding well formed content. -/
def wFileGood : Str := ['g', 'd']

/-- A command line writing one input in place. -/
def wArgvWrite : Argv :=
  { input := [wFileIn], output := none, stdoutFlag := false, check := false,
    indent := 2, lineWidth := 80, quotingStyle := QuotingStyle.single, forceQuotes := false }

/-- The same command line in check mode. -/
def wArgvCheck : Argv := { wArgvWrite with check := true }

/-- A command line naming a file and then stdin. -/
def wArgvDash : Argv := { wArgvWrite with input := [wFileIn, dash] }

/-- A command line naming the malformed file then the well formed one. -/
def wArgvTwo : Argv := { wArgvWrite with input := [wFileBad, wFileGood] }

/-- An environment where every write fails. -/
def wEnvC1 : Env :=
  { stdinIsTTY := false, stdinContent := none,
    readFile := fun f => if f = wFileIn then some wUnsorted else none,
    writeOk := fun _ => false }

/-- An environment where stdin is a terminal and writes succeed. -/
def wEnvTTY : Env :=
  { stdinIsTTY := true, stdinContent := none,
    readFile := fun f => if f = wFileIn then some wUnsorted else none,
    writeOk := fun _ => true }

/-- An environment holding the malformed and the well formed file, where
every write would succeed. -/
def wEnvC9 : Env :=
  { stdinIsTTY := false, stdinContent := none,
    readFile := fun f =>
      if f = wFileBad then some wBadContent
      else if f = wFileGood then some wUnsorted else none,
    writeOk := fun _ => true }

/-- The entries of a two key mapping, keys out of order. -/
def wMapM : List (Str × Node) := [(['b'], Node.scalar ['2']), (['a'], Node.scalar ['1'])]

/-- The same entries with the keys in order. -/
def wMapM2 : List (Str × Node) := [(['a'], Node.scalar ['1']), (['b'], Node.scalar ['2'])]

/-- A table serializer emitting each entry order of the witness mapping
as its own text. -/
def wSerialize : Node → Str := fun n =>
  match n with
  | Node.mapping ((k, _) :: _) => if k = ['b'] then wUnsorted else wSorted
  | _ => []

/-- A table parser reading those texts back. -/
def wParseN : Str → Option Node := fun s =>
  if s = wUnsorted then some (Node.mapping wMapM)
  else if s = wSorted then some (Node.mapping wMapM2) else none

/-! Lemmas about the document splitter of the library model. -/

/-- Unfolding of the splitter on a text of at least four characters. -/
theorem splitM_cons4 (c1 c2 c3 c4 : Char) (rest : Str) :
    splitM (c1 :: c2 :: c3 :: c4 :: rest) =
      if c1 = '-' && c2 = '-' && c3 = '-' && c4 = '\n' then [] :: splitM rest
      else
        match splitM (c2 :: c3 :: c4 :: rest) with
        | [] => [[c1]]
        | g :: gs => (c1 :: g) :: gs := rfl

/-- The splitter cuts at a leading document separator marker. -/
theorem splitM_marker (b : Str) : splitM (marker ++ b) = [] :: splitM b := rfl

/-- The splitter always yields at least one chunk. -/
theorem splitM_ne_nil (l : Str) : splitM l ≠ [] := by
  induction l using splitM.induct with
  | case1 => simp [splitM]
  | case2 c1 c2 c3 c4 rest h ih => rw [splitM_cons4, if_pos h]; simp
  | case3 c1 c2 c3 c4 rest h hs ih => exact absurd hs ih
  | case4 c1 c2 c3 c4 rest h g gs hs ih => rw [splitM_cons4, if_neg h, hs]; simp
  | case5 c cs hshort hs ih => exact absurd hs ih
  | case6 c cs hshort g gs hs ih =>
    rcases cs with _ | ⟨a1, _ | ⟨a2, _ | ⟨a3, cs'⟩⟩⟩
    · simp [splitM]
    · show (match splitM [a1] with | [] => [[c]] | g :: gs => (c :: g) :: gs) ≠ []
      rw [hs]; simp
    · show (match splitM [a1, a2] with | [] => [[c]] | g :: gs => (c :: g) :: gs) ≠ []
      rw [hs]; simp
    · exact absurd rfl (hshort a1 a2 a3 cs')

/-- Only the empty text splits into one single empty chunk. -/
theorem splitM_ne_nilnil (l : Str) (hl : l ≠ []) : splitM l ≠ [[]] := by
  induction l using splitM.induct with
  | case1 => exact absurd rfl hl
  | case2 c1 c2 c3 c4 rest h ih =>
    rw [splitM_cons4, if_pos h]
    intro hc
    exact splitM_ne_nil rest (by injection hc)
  | case3 c1 c2 c3 c4 rest h hs ih => exact absurd hs (splitM_ne_nil _)
  | case4 c1 c2 c3 c4 rest h g gs hs ih => rw [splitM_cons4, if_neg h, hs]; simp
  | case5 c cs hshort hs ih => exact absurd hs (splitM_ne_nil _)
  | case6 c cs hshort g gs hs ih =>
    rcases cs with _ | ⟨a1, _ | ⟨a2, _ | ⟨a3, cs'⟩⟩⟩
    · simp [splitM]
    · show (match splitM [a1] with | [] => [[c]] | g :: gs => (c :: g) :: gs) ≠ [[]]
      rw [hs]; simp
    · show (match splitM [a1, a2] with | [] => [[c]] | g :: gs => (c :: g) :: gs) ≠ [[]]
      rw [hs]; simp
    · exact absurd rfl (hshort a1 a2 a3 cs')

/-- Appending a separator marker and more text after a marker-free chunk
splits into that chunk followed by the split of the rest. -/
theorem splitM_append (a b : Str) (h : splitM a = [a]) :
    splitM (a ++ (marker ++ b)) = a :: splitM b := by
  induction a using splitM.induct with
  | case1 => simpa using splitM_marker b
  | case2 c1 c2 c3 c4 rest hc ih =>
    rw [splitM_cons4, if_pos hc] at h
    exact absurd (List.head_eq_of_cons_eq h).symm (List.cons_ne_nil c1 _)
  | case3 c1 c2 c3 c4 rest hc hs ih => exact absurd hs (splitM_ne_nil _)
  | case4 c1 c2 c3 c4 rest hc g gs hs ih =>
    rw [splitM_cons4, if_neg hc, hs] at h
    injection h with h1 h2
    injection h1 with _ hg
    subst hg; subst h2
    have ih2 := ih hs
    have lhs_eq : (c1 :: c2 :: c3 :: c4 :: rest) ++ (marker ++ b) =
        c1 :: c2 :: c3 :: c4 :: (rest ++ (marker ++ b)) := by simp
    rw [lhs_eq, splitM_cons4, if_neg hc]
    have tail_eq : c2 :: c3 :: c4 :: (rest ++ (marker ++ b)) =
        (c2 :: c3 :: c4 :: rest) ++ (marker ++ b) := by simp
    rw [tail_eq, ih2]
  | case5 c cs hshort hs ih => exact absurd hs (splitM_ne_nil _)
  | case6 c cs hshort g gs hs ih =>
    rcases cs with _ | ⟨a1, _ | ⟨a2, _ | ⟨a3, cs'⟩⟩⟩
    · have h0 : splitM ([c] ++ (marker ++ b)) =
          if c = '-' && '-' = '-' && '-' = '-' && '-' = '\n' then [] :: splitM ('\n' :: b)
          else
            match splitM ('-' :: '-' :: '-' :: '\n' :: b) with
            | [] => [[c]]
            | g :: gs => (c :: g) :: gs := rfl
      rw [h0, if_neg (by simp)]
      rw [show ('-' :: '-' :: '-' :: '\n' :: b : Str) = marker ++ b from rfl, splitM_marker]
    · have h0 : splitM ([c, a1] ++ (marker ++ b)) =
          if c = '-' && a1 = '-' && '-' = '-' && '-' = '\n' then [] :: splitM ('-' :: '\n' :: b)
          else
            match splitM (a1 :: '-' :: '-' :: '-' :: '\n' :: b) with
            | [] => [[c]]
            | g :: gs => (c :: g) :: gs := rfl
      rw [h0, if_neg (by simp)]
      rw [show (a1 :: '-' :: '-' :: '-' :: '\n' :: b : Str) = [a1] ++ (marker ++ b) from rfl]
      rw [ih rfl]
    · have h0 : splitM ([c, a1, a2] ++ (marker ++ b)) =
          if c = '-' && a1 = '-' && a2 = '-' && '-' = '\n' then
            [] :: splitM ('-' :: '-' :: '\n' :: b)
          else
            match splitM (a1 :: a2 :: '-' :: '-' :: '-' :: '\n' :: b) with
            | [] => [[c]]
            | g :: gs => (c :: g) :: gs := rfl
      rw [h0, if_neg (by simp)]
      rw [show (a1 :: a2 :: '-' :: '-' :: '-' :: '\n' :: b : Str) =
            [a1, a2] ++ (marker ++ b) from rfl]
      rw [ih rfl]
    · exact absurd rfl (hshort a1 a2 a3 cs')

/-- Splitting the rejoined document texts recovers them, provided each
text is marker-free in the sense of the splitter. -/
theorem splitM_joinDocs (parts : List Str) (hne : parts ≠ [])
    (h : ∀ p ∈ parts, splitM p = [p]) : splitM (joinDocs parts) = parts := by
  induction parts with
  | nil => exact absurd rfl hne
  | cons p ps ih =>
    cases ps with
    | nil => exact h p (by simp)
    | cons q qs =>
      have hj : joinDocs (p :: q :: qs) = p ++ (marker ++ joinDocs (q :: qs)) := rfl
      rw [hj, splitM_append _ _ (h p (by simp))]
      rw [ih (by simp) (fun x hx => h x (List.mem_cons_of_mem p hx))]

/-- The document stream of a marker followed by rejoined chunks is the
chunk list itself. -/
theorem splitDocs_marker_join (parts : List Str) (hne : parts ≠ [])
    (h : ∀ p ∈ parts, splitM p = [p]) :
    splitDocs (marker ++ joinDocs parts) = parts := by
  show (match splitM (marker ++ joinDocs parts) with
        | [] :: rest => rest
        | ps => ps) = parts
  rw [splitM_marker, splitM_joinDocs parts hne h]

/-- The document stream of rejoined chunks whose first chunk is nonempty
is the chunk list itself. -/
theorem splitDocs_join_cons (p : Str) (ps : List Str) (hp : p ≠ [])
    (h : ∀ x ∈ p :: ps, splitM x = [x]) :
    splitDocs (joinDocs (p :: ps)) = p :: ps := by
  show (match splitM (joinDocs (p :: ps)) with
        | [] :: rest => rest
        | ps => ps) = p :: ps
  rw [splitM_joinDocs _ (by simp) h]
  rcases p with _ | ⟨c, p'⟩
  · exact absurd rfl hp
  · rfl

/-- Only the empty text has an empty document stream. -/
theorem splitDocs_eq_nil (s : Str) (h : splitDocs s = []) : s = [] := by
  by_contra hs
  have h2 := splitM_ne_nilnil s hs
  have hd : splitDocs s = match splitM s with | [] :: rest => rest | ps => ps := rfl
  rw [hd] at h
  cases hm : splitM s with
  | nil => exact splitM_ne_nil s hm
  | cons g gs =>
    rw [hm] at h
    cases g with
    | nil =>
      simp only [] at h
      exact h2 (by rw [hm, h])
    | cons c g' => simp at h

/-- Parsing a document stream preserves its length. -/
theorem parseList_length {D : Type} (parse : Str → Option D) (l : List Str) (ds : List D)
    (h : parseList parse l = some ds) : ds.length = l.length := by
  induction l generalizing ds with
  | nil =>
    simp only [parseList, Option.some.injEq] at h
    subst h
    rfl
  | cons s rest ih =>
    revert h
    show (match parse s with
          | none => none
          | some d =>
            match parseList parse rest with
            | none => none
            | some ds => some (d :: ds)) = some ds → ds.length = (s :: rest).length
    cases hp : parse s with
    | none => intro h; exact absurd h (by simp)
    | some d =>
      cases hr : parseList parse rest with
      | none => intro h; exact absurd h (by simp)
      | some ds' =>
        intro h
        simp only [Option.some.injEq] at h
        subst h
        simp [ih ds' hr]

/-- A parse of a document stream into no documents means the stream was
empty. -/
theorem parseList_some_nil {D : Type} (parse : Str → Option D) (l : List Str)
    (h : parseList parse l = some []) : l = [] := by
  cases l with
  | nil => rfl
  | cons s rest =>
    exfalso
    revert h
    show (match parse s with
          | none => none
          | some d =>
            match parseList parse rest with
            | none => none
            | some ds => some (d :: ds)) = some [] → False
    cases parse s with
    | none => simp
    | some d =>
      cases parseList parse rest with
      | none => simp
      | some ds => simp

/-- Re-parsing dumped documents succeeds and re-dumping the parse results
reproduces the dumped texts, given the per-document round trip contract
of the library. -/
theorem parseList_redump {D : Type} (parse : Str → Option D) (dump : D → DumpOptions → Str)
    (opts : DumpOptions) (docs : List D)
    (hrt : ∀ d ∈ docs, ∃ d', parse (dump d opts) = some d' ∧ dump d' opts = dump d opts) :
    ∃ docs', parseList parse (docs.map (fun d => dump d opts)) = some docs' ∧
      docs'.map (fun d => dump d opts) = docs.map (fun d => dump d opts) := by
  induction docs with
  | nil => exact ⟨[], rfl, rfl⟩
  | cons d ds ih =>
    obtain ⟨d', hp, hd⟩ := hrt d (by simp)
    obtain ⟨ds', hps, hds⟩ := ih (fun x hx => hrt x (List.mem_cons_of_mem d hx))
    refine ⟨d' :: ds', ?_, ?_⟩
    · show (match parse (dump d opts) with
            | none => none
            | some d =>
              match parseList parse (ds.map (fun d => dump d opts)) with
              | none => none
              | some ds => some (d :: ds)) = some (d' :: ds')
      rw [hp, hps]
    · simp [hd, hds]

/-- The chunk facts of the good chunk contract, transported to the dumped
texts of a document list. -/
theorem goodParts {D : Type} (dump : D → DumpOptions → Str) (opts : DumpOptions)
    (docs : List D) (hgood : ∀ d ∈ docs, GoodChunk (dump d opts)) :
    ∀ p ∈ docs.map (fun d => dump d opts), splitM p = [p] := by
  intro p hp
  obtain ⟨d, hd, rfl⟩ := List.mem_map.mp hp
  exact (hgood d hd).1

/-- A good chunk is nonempty. -/
theorem GoodChunk.ne_nil {s : Str} (h : GoodChunk s) : s ≠ [] := by
  intro hs
  subst hs
  obtain ⟨h1, h2, h3, h4⟩ := h
  simp [headNonWs] at h3

/-- A text whose head character is not a dash does not start with the
three dash marker. -/
theorem sw3_head_ne (c : Char) (s : Str) (hc : ¬ c = '-') :
    startsWith3Dash (c :: s) = false := by
  rcases s with _ | ⟨d, _ | ⟨e, rest⟩⟩
  · rfl
  · rfl
  · show (decide (c = '-') && decide (d = '-') && decide (e = '-')) = false
    simp [hc]

/-- A text whose second character is not a dash does not start with the
three dash marker. -/
theorem sw3_second_ne (c1 c2 : Char) (s : Str) (hc : ¬ c2 = '-') :
    startsWith3Dash (c1 :: c2 :: s) = false := by
  rcases s with _ | ⟨e, rest⟩
  · rfl
  · show (decide (c1 = '-') && decide (c2 = '-') && decide (e = '-')) = false
    simp [hc]

/-- Extending a chunk that ends with a newline and does not start with
the three dash marker still does not start with the marker. -/
theorem sw3_append_false (p r : Str) (h1 : endsNl p = true)
    (h2 : startsWith3Dash p = false) : startsWith3Dash (p ++ r) = false := by
  rcases p with _ | ⟨c1, _ | ⟨c2, _ | ⟨c3, p'⟩⟩⟩
  · simp [endsNl] at h1
  · have hc : c1 = '\n' := by simpa [endsNl] using h1
    subst hc
    exact sw3_head_ne _ _ (by decide)
  · have hc : c2 = '\n' := by simpa [endsNl] using h1
    subst hc
    exact sw3_second_ne _ _ _ (by decide)
  · exact h2

/-- Dropping leading whitespace of a text that starts with a character
that is not whitespace changes nothing. -/
theorem trimLeftWs_nonws (c : Char) (s : Str) (hc : isWsChar c = false) :
    trimLeftWs (c :: s) = c :: s := by
  simp [trimLeftWs, List.dropWhile_cons, hc]

/-- The join of a nonempty chunk list extends its first chunk. -/
theorem joinDocs_cons_exists (p : Str) (ps : List Str) :
    ∃ r, joinDocs (p :: ps) = p ++ r := by
  cases ps with
  | nil => exact ⟨[], by simp [joinDocs]⟩
  | cons q qs => exact ⟨marker ++ joinDocs (q :: qs), rfl⟩

/-- A good chunk starts with a character that is not whitespace. -/
theorem GoodChunk.head_shape {s : Str} (h : GoodChunk s) :
    ∃ c s', s = c :: s' ∧ isWsChar c = false := by
  obtain ⟨h1, h2, h3, h4⟩ := h
  cases s with
  | nil => simp [headNonWs] at h3
  | cons c s' =>
    refine ⟨c, s', rfl, ?_⟩
    simpa [headNonWs] using h3

/-- Evaluation of the pipeline on an input whose load succeeds. -/
theorem sortAndFormat_eq_some {D : Type} (parse : Str → Option D)
    (dump : D → DumpOptions → Str) (opts : DumpOptions) (content : Str) (docs : List D)
    (hload : loadAll parse content = some docs) :
    sortAndFormat parse dump opts content =
      some ((if hasDocumentStart content then marker else []) ++
        joinDocs (docs.map (fun d => dump d opts))) := by
  have h0 : sortAndFormat parse dump opts content =
      match loadAll parse content with
      | none => none
      | some documents =>
        some ((if hasDocumentStart content then marker else []) ++
          joinDocs (documents.map (fun doc => dump doc opts))) := rfl
  rw [h0, hload]

/-- Shape of the pipeline output: the optional document start marker
followed by the rejoined dumped documents. -/
theorem sf_out_eq {D : Type} (parse : Str → Option D) (dump : D → DumpOptions → Str)
    (opts : DumpOptions) (input out : Str) (docs : List D)
    (hload : loadAll parse input = some docs)
    (hout : sortAndFormat parse dump opts input = some out) :
    out = (if hasDocumentStart input then marker else []) ++
      joinDocs (docs.map (fun d => dump d opts)) := by
  have h0 : sortAndFormat parse dump opts input =
      match loadAll parse input with
      | none => none
      | some documents =>
        some ((if hasDocumentStart input then marker else []) ++
          joinDocs (documents.map (fun doc => dump doc opts))) := rfl
  rw [h0, hload] at hout
  simp only [Option.some.injEq] at hout
  exact hout.symm

/-- A load into no documents only happens on empty input. -/
theorem load_nil_input {D : Type} (parse : Str → Option D) (input : Str)
    (hload : loadAll parse input = some ([] : List D)) : input = [] :=
  splitDocs_eq_nil input (parseList_some_nil parse _ hload)

/-- The document stream of the pipeline output is exactly the list of
dumped documents, in order. -/
theorem out_splitDocs {D : Type} (parse : Str → Option D) (dump : D → DumpOptions → Str)
    (opts : DumpOptions) (input out : Str) (docs : List D)
    (hload : loadAll parse input = some docs)
    (hgood : ∀ d ∈ docs, GoodChunk (dump d opts))
    (hout : sortAndFormat parse dump opts input = some out) :
    splitDocs out = docs.map (fun d => dump d opts) := by
  have hsh := sf_out_eq parse dump opts input out docs hload hout
  cases docs with
  | nil =>
    have hin : input = [] := load_nil_input parse input hload
    subst hin
    rw [hsh]
    rfl
  | cons d ds =>
    have hmap : (d :: ds).map (fun x => dump x opts) =
        dump d opts :: ds.map (fun x => dump x opts) := rfl
    cases hds : hasDocumentStart input with
    | true =>
      rw [hds, if_pos rfl] at hsh
      rw [hsh]
      exact splitDocs_marker_join _ (by simp [hmap]) (goodParts dump opts _ hgood)
    | false =>
      rw [hds, if_neg (by simp)] at hsh
      simp only [List.nil_append] at hsh
      rw [hsh, hmap]
      refine splitDocs_join_cons _ _ ((hgood d (by simp)).ne_nil) ?_
      rw [← hmap]
      exact goodParts dump opts _ hgood

/-- The pipeline output carries the document start marker exactly when
the input did. -/
theorem out_hasDS {D : Type} (parse : Str → Option D) (dump : D → DumpOptions → Str)
    (opts : DumpOptions) (input out : Str) (docs : List D)
    (hload : loadAll parse input = some docs)
    (hgood : ∀ d ∈ docs, GoodChunk (dump d opts))
    (hout : sortAndFormat parse dump opts input = some out) :
    hasDocumentStart out = hasDocumentStart input := by
  have hsh := sf_out_eq parse dump opts input out docs hload hout
  cases docs with
  | nil =>
    have hin : input = [] := load_nil_input parse input hload
    subst hin
    rw [hsh]
    rfl
  | cons d ds =>
    have hmap : (d :: ds).map (fun x => dump x opts) =
        dump d opts :: ds.map (fun x => dump x opts) := rfl
    cases hds : hasDocumentStart input with
    | true =>
      rw [hds, if_pos rfl] at hsh
      rw [hsh]
      rfl
    | false =>
      rw [hds, if_neg (by simp)] at hsh
      simp only [List.nil_append] at hsh
      rw [hmap] at hsh
      obtain ⟨r, hr⟩ := joinDocs_cons_exists (dump d opts) (ds.map (fun x => dump x opts))
      rw [hr] at hsh
      obtain ⟨c, s', hcs, hcw⟩ := (hgood d (by simp)).head_shape
      obtain ⟨g1, g2, g3, g4⟩ := hgood d (by simp)
      rw [hsh]
      unfold hasDocumentStart
      rw [hcs]
      rw [show (c :: s') ++ r = c :: (s' ++ r) from rfl]
      rw [trimLeftWs_nonws c _ hcw]
      rw [show c :: (s' ++ r) = (c :: s') ++ r from rfl]
      exact sw3_append_false _ _ (hcs ▸ g2) (hcs ▸ g4)

/-- The trimmed pipeline output equals the output itself: it never starts
with whitespace. -/
theorem out_trim {D : Type} (parse : Str → Option D) (dump : D → DumpOptions → Str)
    (opts : DumpOptions) (input out : Str) (docs : List D)
    (hload : loadAll parse input = some docs)
    (hgood : ∀ d ∈ docs, GoodChunk (dump d opts))
    (hout : sortAndFormat parse dump opts input = some out) :
    trimLeftWs out = out := by
  have hsh := sf_out_eq parse dump opts input out docs hload hout
  cases docs with
  | nil =>
    have hin : input = [] := load_nil_input parse input hload
    subst hin
    rw [hsh]
    rfl
  | cons d ds =>
    have hmap : (d :: ds).map (fun x => dump x opts) =
        dump d opts :: ds.map (fun x => dump x opts) := rfl
    cases hds : hasDocumentStart input with
    | true =>
      rw [hds, if_pos rfl] at hsh
      rw [hsh]
      exact trimLeftWs_nonws '-' _ (by decide)
    | false =>
      rw [hds, if_neg (by simp)] at hsh
      simp only [List.nil_append] at hsh
      rw [hmap] at hsh
      obtain ⟨r, hr⟩ := joinDocs_cons_exists (dump d opts) (ds.map (fun x => dump x opts))
      rw [hr] at hsh
      obtain ⟨c, s', hcs, hcw⟩ := (hgood d (by simp)).head_shape
      rw [hsh, hcs]
      rw [show (c :: s') ++ r = c :: (s' ++ r) from rfl]
      exact trimLeftWs_nonws c _ hcw

/-- C4: for every valid YAML input text and every formatting options
value, the sort and format pipeline is idempotent, given the library
contract: every dumped document is a well behaved chunk and re-parsing a
dumped document yields a document that dumps to the same text. -/
theorem C4_sortAndFormat_idempotent {D : Type} (parse : Str → Option D)
    (dump : D → DumpOptions → Str) (opts : DumpOptions) (input out : Str) (docs : List D)
    (hload : loadAll parse input = some docs)
    (hgood : ∀ d ∈ docs, GoodChunk (dump d opts))
    (hrt : ∀ d ∈ docs, ∃ d', parse (dump d opts) = some d' ∧ dump d' opts = dump d opts)
    (hout : sortAndFormat parse dump opts input = some out) :
    sortAndFormat parse dump opts out = some out := by
  have hsd := out_splitDocs parse dump opts input out docs hload hgood hout
  have hds := out_hasDS parse dump opts input out docs hload hgood hout
  have hsh := sf_out_eq parse dump opts input out docs hload hout
  obtain ⟨docs', hps, hredump⟩ := parseList_redump parse dump opts docs hrt
  have hload2 : loadAll parse out = some docs' := by
    unfold loadAll
    rw [hsd]
    exact hps
  have h0 : sortAndFormat parse dump opts out =
      match loadAll parse out with
      | none => none
      | some documents =>
        some ((if hasDocumentStart out then marker else []) ++
          joinDocs (documents.map (fun doc => dump doc opts))) := rfl
  rw [h0, hload2]
  show some ((if hasDocumentStart out then marker else []) ++
    joinDocs (docs'.map (fun d => dump d opts))) = some out
  rw [hredump, hds, ← hsh]

/-- C5: the pipeline output begins with the three dash document start
marker exactly when the raw input, after trimming leading whitespace,
begins with it, given the good chunk contract of the library dump. -/
theorem C5_document_start_marker {D : Type} (parse : Str → Option D)
    (dump : D → DumpOptions → Str) (opts : DumpOptions) (input out : Str) (docs : List D)
    (hload : loadAll parse input = some docs)
    (hgood : ∀ d ∈ docs, GoodChunk (dump d opts))
    (hout : sortAndFormat parse dump opts input = some out) :
    startsWith3Dash out = hasDocumentStart input := by
  have h1 := out_hasDS parse dump opts input out docs hload hgood hout
  have h2 := out_trim parse dump opts input out docs hload hgood hout
  unfold hasDocumentStart at h1
  rw [h2] at h1
  exact h1

/-- C6: the pipeline output holds exactly as many documents as the
input, and they are the dumps of the input documents in their original
order, given the good chunk contract of the library dump. -/
theorem C6_document_count {D : Type} (parse : Str → Option D)
    (dump : D → DumpOptions → Str) (opts : DumpOptions) (input out : Str) (docs : List D)
    (hload : loadAll parse input = some docs)
    (hgood : ∀ d ∈ docs, GoodChunk (dump d opts))
    (hout : sortAndFormat parse dump opts input = some out) :
    splitDocs out = docs.map (fun d => dump d opts) ∧
      (splitDocs out).length = (splitDocs input).length := by
  have hsd := out_splitDocs parse dump opts input out docs hload hgood hout
  refine ⟨hsd, ?_⟩
  rw [hsd]
  have hlen := parseList_length parse (splitDocs input) docs hload
  simp [hlen]

/-- Witness for C4: the pipeline output of the concrete unsorted mapping
text is a fixed point of the pipeline. -/
theorem C4_witness : sortAndFormat wParse wDump wOpts wSorted = some wSorted :=
  C4_sortAndFormat_idempotent wParse wDump wOpts wUnsorted wSorted [0]
    (by decide)
    (by decide)
    (by
      intro d hd
      simp only [List.mem_singleton] at hd
      subst hd
      exact ⟨0, by decide, rfl⟩)
    (by decide)

/-- Witness for C5: the concrete marked input keeps its document start
marker through the pipeline. -/
theorem C5_witness : startsWith3Dash (marker ++ wSorted) = hasDocumentStart wMarked :=
  C5_document_start_marker wParse wDump wOpts wMarked (marker ++ wSorted) [0]
    (by decide) (by decide) (by decide)

/-- Witness for C6: the concrete two document input keeps its document
count and order through the pipeline. -/
theorem C6_witness :
    splitDocs (wSorted ++ (marker ++ wSorted)) =
      ([0, 0] : List Nat).map (fun d => wDump d wOpts) ∧
    (splitDocs (wSorted ++ (marker ++ wSorted))).length = (splitDocs wTwoDocs).length :=
  C6_document_count wParse wDump wOpts wTwoDocs (wSorted ++ (marker ++ wSorted)) [0, 0]
    (by decide) (by decide) (by decide)

/-- Recursive child sorting is a map over the entries. -/
theorem sortChildren_eq_map (l : List (Str × Node)) :
    sortChildren l = l.map (fun e => (e.1, sortNode e.2)) := by
  induction l with
  | nil => rfl
  | cons e rest ih =>
    cases e with
    | mk k v => simp [sortChildren, ih]

/-- Sorting mapping entries by key is invariant under permutation of the
entries, provided the keys are distinct. -/
theorem sortEntries_perm_eq (l l' : List (Str × Node)) (hp : l.Perm l')
    (hnd : (l.map Prod.fst).Nodup) : sortEntries l = sortEntries l' := by
  have hs1 : List.Sorted entryLe (sortEntries l) := List.sorted_insertionSort entryLe l
  have hs2 : List.Sorted entryLe (sortEntries l') := List.sorted_insertionSort entryLe l'
  have hp1 : (sortEntries l).Perm l := List.perm_insertionSort entryLe l
  have hp2 : (sortEntries l').Perm l' := List.perm_insertionSort entryLe l'
  have hperm : (sortEntries l).Perm (sortEntries l') := hp1.trans (hp.trans hp2.symm)
  have hnd1 : ((sortEntries l).map Prod.fst).Nodup := (hp1.map Prod.fst).nodup_iff.mpr hnd
  have hnd2 : ((sortEntries l').map Prod.fst).Nodup :=
    (hp2.map Prod.fst).nodup_iff.mpr ((hp.map Prod.fst).nodup_iff.mp hnd)
  have hne1 : (sortEntries l).Pairwise (fun a b => a.1 ≠ b.1) := List.pairwise_map.mp hnd1
  have hne2 : (sortEntries l').Pairwise (fun a b => a.1 ≠ b.1) := List.pairwise_map.mp hnd2
  have hlt1 : List.Sorted entryLt (sortEntries l) :=
    (hs1.and hne1).imp (fun h => lt_of_le_of_ne h.1 h.2)
  have hlt2 : List.Sorted entryLt (sortEntries l') :=
    (hs2.and hne2).imp (fun h => lt_of_le_of_ne h.1 h.2)
  exact List.eq_of_perm_of_sorted hperm hlt1 hlt2

/-- C7: the pipeline output is invariant under permutation of the entries
of a serialized mapping: for a mapping with distinct keys, any entry
order of the serialized input yields the same output, given that the
parser reads each serialization back to the respective mapping and the
serializations agree on the document start marker. -/
theorem C7_key_order_invariance (parse : Str → Option Node) (serialize : Node → Str)
    (opts : DumpOptions) (M M' : List (Str × Node)) (hperm : M.Perm M')
    (hnodup : (M.map Prod.fst).Nodup)
    (hpM : loadAll parse (serialize (Node.mapping M)) = some [Node.mapping M])
    (hpM' : loadAll parse (serialize (Node.mapping M')) = some [Node.mapping M'])
    (hds : hasDocumentStart (serialize (Node.mapping M)) =
      hasDocumentStart (serialize (Node.mapping M'))) :
    sortAndFormat parse dumpDoc opts (serialize (Node.mapping M)) =
      sortAndFormat parse dumpDoc opts (serialize (Node.mapping M')) := by
  have hsort : sortNode (Node.mapping M) = sortNode (Node.mapping M') := by
    have h1 : sortNode (Node.mapping M) = Node.mapping (sortEntries (sortChildren M)) := by
      simp [sortNode]
    have h2 : sortNode (Node.mapping M') = Node.mapping (sortEntries (sortChildren M')) := by
      simp [sortNode]
    rw [h1, h2]
    congr 1
    apply sortEntries_perm_eq
    · rw [sortChildren_eq_map, sortChildren_eq_map]
      exact hperm.map _
    · rw [sortChildren_eq_map]
      have hkeys : (M.map (fun e => (e.1, sortNode e.2))).map Prod.fst = M.map Prod.fst := by
        rw [List.map_map]
        rfl
      rw [hkeys]
      exact hnodup
  have hdump : dumpDoc (Node.mapping M) opts = dumpDoc (Node.mapping M') opts := by
    unfold dumpDoc
    rw [hsort]
  have e1 := sortAndFormat_eq_some parse dumpDoc opts (serialize (Node.mapping M))
    [Node.mapping M] hpM
  have e2 := sortAndFormat_eq_some parse dumpDoc opts (serialize (Node.mapping M'))
    [Node.mapping M'] hpM'
  rw [e1, e2]
  simp only [List.map_cons, List.map_nil]
  rw [hdump, hds]

/-- Witness for C7 at the concrete two key mapping and its swap. -/
theorem C7_witness :
    sortAndFormat wParseN dumpDoc wOpts (wSerialize (Node.mapping wMapM)) =
      sortAndFormat wParseN dumpDoc wOpts (wSerialize (Node.mapping wMapM2)) :=
  C7_key_order_invariance wParseN wSerialize wOpts wMapM wMapM2
    (List.Perm.swap _ _ _) (by decide) rfl rfl rfl

/-- Nothing changes after a process exit. -/
theorem procOne_exited {D : Type} (parse : Str → Option D) (dump : D → DumpOptions → Str)
    (env : Env) (argv : Argv) (st : SyncState) (f : Str) (c : Nat)
    (h : st.exited = some c) : procOne parse dump env argv st f = st := by
  unfold procOne
  rw [h]

/-- The rest of the loop changes nothing after a process exit. -/
theorem foldl_exited {D : Type} (parse : Str → Option D) (dump : D → DumpOptions → Str)
    (env : Env) (argv : Argv) (l : List Str) (st : SyncState) (c : Nat)
    (h : st.exited = some c) :
    l.foldl (fun s f => procOne parse dump env argv s f) st = st := by
  induction l with
  | nil => rfl
  | cons f rest ih =>
    simp only [List.foldl_cons]
    rw [procOne_exited parse dump env argv st f c h]
    exact ih

/-- The loop body leaves the exit state unchanged. -/
theorem procBody_exited {D : Type} (parse : Str → Option D) (dump : D → DumpOptions → Str)
    (env : Env) (argv : Argv) (st : SyncState) (f : Str) :
    (procBody parse dump env argv st f).exited = st.exited := by
  unfold procBody
  split
  · rfl
  · split
    · rfl
    · split
      · split
        · rfl
        · rfl
      · rfl

/-- Processing an input other than the stdin placeholder never exits. -/
theorem procOne_not_dash_exited {D : Type} (parse : Str → Option D)
    (dump : D → DumpOptions → Str) (env : Env) (argv : Argv) (st : SyncState) (f : Str)
    (hf : f ≠ dash) :
    (procOne parse dump env argv st f).exited = st.exited := by
  unfold procOne
  cases hex : st.exited with
  | some c => exact hex
  | none =>
    rw [if_neg (fun h => hf h.1)]
    rw [procBody_exited]
    exact hex

/-- The loop body extends the read list by at most the processed input. -/
theorem procBody_reads {D : Type} (parse : Str → Option D) (dump : D → DumpOptions → Str)
    (env : Env) (argv : Argv) (st : SyncState) (f : Str) :
    (procBody parse dump env argv st f).reads = st.reads ∨
      (procBody parse dump env argv st f).reads = st.reads ++ [f] := by
  unfold procBody
  split
  · left; rfl
  · split
    · right; rfl
    · split
      · split
        · right; rfl
        · right; rfl
      · right; rfl

/-- In check mode the loop body queues no write. -/
theorem procBody_queued_check {D : Type} (parse : Str → Option D)
    (dump : D → DumpOptions → Str) (env : Env) (argv : Argv) (st : SyncState) (f : Str)
    (hc : argv.check = true) :
    (procBody parse dump env argv st f).queued = st.queued := by
  unfold procBody
  split
  · rfl
  · split
    · rfl
    · split
      · split
        · rfl
        · rfl
      · next hcheck => exact absurd hc hcheck

/-- One loop iteration extends the read list by at most the input. -/
theorem procOne_reads {D : Type} (parse : Str → Option D) (dump : D → DumpOptions → Str)
    (env : Env) (argv : Argv) (st : SyncState) (f : Str) :
    (procOne parse dump env argv st f).reads = st.reads ∨
      (procOne parse dump env argv st f).reads = st.reads ++ [f] := by
  unfold procOne
  cases hex : st.exited with
  | some c => left; rfl
  | none =>
    by_cases htty : f = dash ∧ env.stdinIsTTY = true
    · rw [if_pos htty]; left; rfl
    · rw [if_neg htty]; exact procBody_reads parse dump env argv st f

/-- In check mode one loop iteration queues no write. -/
theorem procOne_queued_check {D : Type} (parse : Str → Option D)
    (dump : D → DumpOptions → Str) (env : Env) (argv : Argv) (st : SyncState) (f : Str)
    (hc : argv.check = true) :
    (procOne parse dump env argv st f).queued = st.queued := by
  unfold procOne
  cases hex : st.exited with
  | some c => rfl
  | none =>
    by_cases htty : f = dash ∧ env.stdinIsTTY = true
    · rw [if_pos htty]
    · rw [if_neg htty]; exact procBody_queued_check parse dump env argv st f hc

/-- In check mode the whole loop queues no write. -/
theorem foldl_queued_check {D : Type} (parse : Str → Option D)
    (dump : D → DumpOptions → Str) (env : Env) (argv : Argv) (l : List Str)
    (st : SyncState) (hc : argv.check = true) :
    (l.foldl (fun s f => procOne parse dump env argv s f) st).queued = st.queued := by
  induction l generalizing st with
  | nil => rfl
  | cons f rest ih =>
    simp only [List.foldl_cons]
    rw [ih (procOne parse dump env argv st f)]
    exact procOne_queued_check parse dump env argv st f hc

/-- C8: check mode is read-only: with the check flag set, a run queues
no write and completes no write, whatever the inputs, the environment,
the parser and the serializer are; every file is left as it was. -/
theorem C8_check_mode_readonly {D : Type} (parse : Str → Option D)
    (dump : D → DumpOptions → Str) (env : Env) (argv : Argv) (hc : argv.check = true) :
    (run parse dump env argv).writesAttempted = [] ∧
      (run parse dump env argv).writesCompleted = [] := by
  have hq := foldl_queued_check parse dump env argv argv.input initState hc
  unfold run runOf
  split
  · constructor
    · exact hq
    · rfl
  · split
    · constructor
      · exact hq
      · rw [hq]; rfl
    · constructor
      · exact hq
      · rfl

/-- Witness for C8 at the concrete check mode command line. -/
theorem C8_witness :
    (run wParse wDump wEnvC1 wArgvCheck).writesAttempted = [] ∧
      (run wParse wDump wEnvC1 wArgvCheck).writesCompleted = [] :=
  C8_check_mode_readonly wParse wDump wEnvC1 wArgvCheck rfl

/-- C3: in check mode a file is reported unsorted exactly when the
pipeline output differs from the raw content as a string: the warning
list grows by the file name when the strings differ and stays unchanged
when they are equal byte for byte. -/
theorem C3_check_exact_equality {D : Type} (parse : Str → Option D)
    (dump : D → DumpOptions → Str) (env : Env) (argv : Argv) (st : SyncState)
    (f raw s : Str) (hc : argv.check = true) (hex : st.exited = none)
    (hnt : ¬(f = dash ∧ env.stdinIsTTY = true))
    (hr : (if f = dash then env.stdinContent else env.readFile f) = some raw)
    (hs : sortAndFormat parse dump (dumpOptionsOf argv) raw = some s) :
    (procOne parse dump env argv st f).warned =
      st.warned ++ (if s = raw then [] else [f]) := by
  have h1 : procOne parse dump env argv st f = procBody parse dump env argv st f := by
    unfold procOne
    rw [hex]
    show (if f = dash ∧ env.stdinIsTTY = true then { st with exited := some 22 }
          else procBody parse dump env argv st f) = procBody parse dump env argv st f
    rw [if_neg hnt]
  rw [h1]
  unfold procBody
  split
  · next heq => rw [hr] at heq; exact absurd heq (by simp)
  · next content heq =>
    rw [hr] at heq
    injection heq with hce
    subst hce
    split
    · next heq2 => rw [hs] at heq2; exact absurd heq2 (by simp)
    · next sc heq2 =>
      rw [hs] at heq2
      injection heq2 with hsc
      subst hsc
      rw [if_pos hc]
      by_cases he : s = raw
      · rw [if_pos he, if_pos he]
        simp
      · rw [if_neg he, if_neg he]

/-- Witness for C3 at the concrete unsorted input in check mode. -/
theorem C3_witness :
    (procOne wParse wDump wEnvC1 wArgvCheck initState wFileIn).warned =
      initState.warned ++ (if wSorted = wUnsorted then [] else [wFileIn]) :=
  C3_check_exact_equality wParse wDump wEnvC1 wArgvCheck initState wFileIn wUnsorted wSorted
    rfl rfl (by decide) (by decide) (by decide)

/-- If the input list still holds the stdin placeholder and stdin is a
terminal, the loop ends in the misuse exit, and every input read from
this point on lies strictly before the first placeholder. -/
theorem foldl_dash_tty {D : Type} (parse : Str → Option D) (dump : D → DumpOptions → Str)
    (env : Env) (argv : Argv) (hT : env.stdinIsTTY = true) :
    ∀ (l : List Str) (st : SyncState), st.exited = none → dash ∈ l →
      (l.foldl (fun s f => procOne parse dump env argv s f) st).exited = some 22 ∧
      ∀ x ∈ (l.foldl (fun s f => procOne parse dump env argv s f) st).reads,
        x ∈ st.reads ∨ x ∈ l.takeWhile (fun f => decide (f ≠ dash)) := by
  intro l
  induction l with
  | nil => intro st _ hm; simp at hm
  | cons f rest ih =>
    intro st hex hm
    by_cases hf : f = dash
    · subst hf
      have hstep : procOne parse dump env argv st dash = { st with exited := some 22 } := by
        unfold procOne
        rw [hex]
        show (if dash = dash ∧ env.stdinIsTTY = true then { st with exited := some 22 }
              else procBody parse dump env argv st dash) = { st with exited := some 22 }
        rw [if_pos ⟨rfl, hT⟩]
      simp only [List.foldl_cons, hstep]
      rw [foldl_exited parse dump env argv rest _ 22 rfl]
      exact ⟨rfl, fun x hx => Or.inl hx⟩
    · have hm' : dash ∈ rest := by
        rcases List.mem_cons.mp hm with h1 | h2
        · exact absurd h1.symm hf
        · exact h2
      have hex' : (procOne parse dump env argv st f).exited = none := by
        rw [procOne_not_dash_exited parse dump env argv st f hf]
        exact hex
      obtain ⟨hx22, hreads⟩ := ih (procOne parse dump env argv st f) hex' hm'
      simp only [List.foldl_cons]
      refine ⟨hx22, ?_⟩
      intro x hx
      have htw : (f :: rest).takeWhile (fun f => decide (f ≠ dash)) =
          f :: rest.takeWhile (fun f => decide (f ≠ dash)) :=
        List.takeWhile_cons_of_pos (by simp [hf])
      rcases hreads x hx with h1 | h2
      · rcases procOne_reads parse dump env argv st f with hs | hs
        · rw [hs] at h1
          exact Or.inl h1
        · rw [hs] at h1
          rcases List.mem_append.mp h1 with ha | hb
          · exact Or.inl ha
          · right
            rw [htw]
            simp only [List.mem_singleton] at hb
            subst hb
            exact List.mem_cons_self x _
      · right
        rw [htw]
        exact List.mem_cons_of_mem f h2

/-- C2 as amended: when the input list names stdin while stdin is a
terminal, the run exits with code 22, no queued write completes, and the
only inputs read are those listed strictly before the first stdin
placeholder; inputs from the placeholder on are untouched. -/
theorem C2_misuse_aborts_at_dash {D : Type} (parse : Str → Option D)
    (dump : D → DumpOptions → Str) (env : Env) (argv : Argv)
    (hT : env.stdinIsTTY = true) (hm : dash ∈ argv.input) :
    (run parse dump env argv).exitCode = 22 ∧
      (run parse dump env argv).writesCompleted = [] ∧
      ∀ x ∈ (run parse dump env argv).reads,
        x ∈ argv.input.takeWhile (fun f => decide (f ≠ dash)) := by
  obtain ⟨hx, hr⟩ := foldl_dash_tty parse dump env argv hT argv.input initState rfl hm
  unfold run runOf
  rw [hx]
  refine ⟨rfl, rfl, ?_⟩
  intro x hxx
  rcases hr x hxx with h1 | h2
  · simp [initState] at h1
  · exact h2

/-- Counterexample to C2 as stated: with the file then stdin listed and
stdin a terminal, the run does exit with code 22, yet the earlier input
was read (and parsed and its write queued) before the misuse exit fired,
refuting that no input in the batch is processed. -/
theorem C2_counterexample :
    (run wParse wDump wEnvTTY wArgvDash).exitCode = 22 ∧
      (run wParse wDump wEnvTTY wArgvDash).reads = [wFileIn] ∧
      (run wParse wDump wEnvTTY wArgvDash).writesAttempted =
        [(Dest.file wFileIn, wSorted)] := by decide

/-- Witness for the amended C2 at the concrete instance. -/
theorem C2_witness :
    (run wParse wDump wEnvTTY wArgvDash).exitCode = 22 ∧
      (run wParse wDump wEnvTTY wArgvDash).writesCompleted = [] ∧
      ∀ x ∈ (run wParse wDump wEnvTTY wArgvDash).reads,
        x ∈ wArgvDash.input.takeWhile (fun f => decide (f ≠ dash)) :=
  C2_misuse_aborts_at_dash wParse wDump wEnvTTY wArgvDash rfl (by decide)

/-- C1 demonstration: a run whose single input parses fine but whose
write fails still exits with code 0: the exit check of line 138 runs
before the write callback can clear the success flag, so a write failure
can never make the exit code non-zero. -/
theorem C1_write_failure_exit_zero :
    (run wParse wDump wEnvC1 wArgvWrite).exitCode = 0 ∧
      (run wParse wDump wEnvC1 wArgvWrite).writesAttempted =
        [(Dest.file wFileIn, wSorted)] ∧
      wEnvC1.writeOk (Dest.file wFileIn) = false ∧
      (run wParse wDump wEnvC1 wArgvWrite).writesCompleted = [] := by decide

/-- C9 demonstration: with a malformed first input and a well formed
second input, the run exits 1 and the second input is read, parsed and
its write queued, but the exit of line 139 fires before the queued
asynchronous write runs, so nothing is ever written even though the
destination is writable. -/
theorem C9_parse_failure_drops_sibling_write :
    (run wParse wDump wEnvC9 wArgvTwo).exitCode = 1 ∧
      (run wParse wDump wEnvC9 wArgvTwo).reads = [wFileBad, wFileGood] ∧
      (run wParse wDump wEnvC9 wArgvTwo).writesAttempted =
        [(Dest.file wFileGood, wSorted)] ∧
      (run wParse wDump wEnvC9 wArgvTwo).writesCompleted = [] ∧
      wEnvC9.writeOk (Dest.file wFileGood) = true := by decide

/-- C10: the destination computation of the source agrees with the
resolution rule of the claim, for every command line whose output value
is not the empty string (the path normalization of the option layer never
produces an empty path, so the empty string is unreachable). -/
theorem C10_output_resolution (argv : Argv) (f : Str) (h : argv.output ≠ some []) :
    resolveOutput argv f = resolveOutputClaim argv f := by
  unfold resolveOutput resolveOutputClaim
  cases ho : argv.output with
  | none =>
    have e1 : (argv.stdoutFlag = true ∨ (none : Option Str) = some ['.'] ∨
          (f = dash ∧ truthyOut none = false)) ↔
        (argv.stdoutFlag = true ∨ (none : Option Str) = some ['.'] ∨
          (f = dash ∧ (none : Option Str) = none)) := by
      simp [truthyOut]
    exact if_congr e1 rfl rfl
  | some o =>
    have hne : o ≠ [] := by
      intro he
      subst he
      exact h ho
    have e1 : (argv.stdoutFlag = true ∨ (some o : Option Str) = some ['.'] ∨
          (f = dash ∧ truthyOut (some o) = false)) ↔
        (argv.stdoutFlag = true ∨ (some o : Option Str) = some ['.'] ∨
          (f = dash ∧ (some o : Option Str) = none)) := by
      simp [truthyOut, hne]
    refine if_congr e1 rfl ?_
    show (if o = [] then Dest.file f else Dest.file o) = Dest.file o
    rw [if_neg hne]

/-- Witness for C10 at a concrete command line with an output path. -/
theorem C10_witness :
    resolveOutput { wArgvWrite with output := some wFileGood } wFileIn =
      resolveOutputClaim { wArgvWrite with output := some wFileGood } wFileIn :=
  C10_output_resolution { wArgvWrite with output := some wFileGood } wFileIn (by decide)
